import Mathlib

/-!
Verification of the token-gate access-control engine (tzConnectBerlin/token-gate).

The development shallowly embeds the `TokenGate` class of `src/src/index.ts`
(the revision spanning lines 128-362, which is the one the specification's
claims cite): endpoint strings become `List Char`, the JS object holding the
per-endpoint rules becomes an insertion-ordered association list, the external
postgres ledger becomes a list of rows, and the `SUM(...)` aggregate query of
`ownsOneOf` is modelled with SQL semantics (the sum of an empty row set is
NULL, coalesced to 0 by the `?? 0` in the source).  The unbounded
`for (endpoint = strip(endpoint); endpoint !== "/"; endpoint = reduce(endpoint))`
loop of `getRuleForEndpoint` is embedded with an explicit fuel argument; the
termination theorems below prove that the reduction reaches the root `"/"`
within `length + 1` steps, so the fuel never runs out and the fueled embedding
agrees with the source loop.
-/

/-- Endpoint paths, addresses, names and SQL fragments are JS strings,
modelled as lists of characters. -/
abbrev Str := List Char

/-- The customizable column names of the ledger table
(`CustomizableColumns` in `src/src/index.ts`). -/
structure Columns where
  address : Str
  token : Str
  amount : Str
deriving DecidableEq

/-- A per-endpoint rule (`Rule<number>` in the source): an optional
`noRules` marker (absent ≈ false) and an optional list of allowed token ids. -/
structure Rule where
  noRules : Bool
  allowedTokens : Option (List Int)
deriving DecidableEq

/-- A token reference as written in configuration: a raw numeric id or a
symbolic alias name (`number | string` in the source). -/
inductive TokenRef where
  | num (id : Int) : TokenRef
  | name (n : Str) : TokenRef
deriving DecidableEq

/-- A rule as rendered by `getSpec`: token ids may have been rendered back to
their alias names. -/
structure SpecRule where
  noRules : Bool
  allowedTokens : Option (List TokenRef)
deriving DecidableEq

/-- One row of the external ledger table: the triple of the configured
address, token-id and amount columns. -/
structure LedgerRow where
  address : Str
  token : Int
  amount : Int
deriving DecidableEq

/-- One row of the external whitelist table (spec section 3). -/
structure WhitelistRow where
  address : Str
  claimed : Bool
deriving DecidableEq

/-- The authentication payload a framework adapter may attach to a request
(`req.auth`, whose `userAddress` may again be absent). -/
structure Auth where
  userAddress : Option Str

/-- The part of an express request the gate reads. -/
structure Req where
  baseUrl : Str
  auth : Option Auth

/-- The `TokenGate` class state: schema/table/column configuration, the two
alias maps, the per-endpoint rule object (an insertion-ordered association
list, like a JS object), and the two request-extraction functions. -/
structure TokenGate where
  schema : Str
  table : Str
  columns : Columns
  tokenIdNames : Int → Option Str
  tokenNameIds : Str → Option Int
  rules : List (Str × Rule)
  urlFromReq : Req → Str
  tzAddrFromReq : Req → Option Str

/-- The constructor (`src/src/index.ts` lines 168-186): default schema
`token_gate`, default table `storage.ledger_live`, default column names, empty
alias maps and rules, and the default request extractors. -/
def initTokenGate : TokenGate :=
  { schema := "token_gate".toList
    table := "storage.ledger_live".toList
    columns :=
      { address := "idx_address".toList
        token := "idx_nat".toList
        amount := "nat".toList }
    tokenIdNames := fun _ => none
    tokenNameIds := fun _ => none
    rules := []
    urlFromReq := fun req => req.baseUrl
    tzAddrFromReq := fun req => req.auth.bind Auth.userAddress }

/-- `setUrlFromReqFunc` (lines 234-237).  The source body assigns the given
function to `this.tzAddrFromReq`, not to `this.urlFromReq`. -/
def setUrlFromReqFunc (g : TokenGate) (f : Req → Option Str) : TokenGate :=
  { g with tzAddrFromReq := f }

/-- `setTzAddrFromReqFunc` (lines 239-242). -/
def setTzAddrFromReqFunc (g : TokenGate) (f : Req → Option Str) : TokenGate :=
  { g with tzAddrFromReq := f }

/-- `nameTokenId` (lines 244-248): unconditionally writes both alias maps and
returns the gate. -/
def nameTokenId (g : TokenGate) (id : Int) (n : Str) : TokenGate :=
  { g with
    tokenIdNames := fun i => if i = id then some n else g.tokenIdNames i
    tokenNameIds := fun m => if m = n then some id else g.tokenNameIds m }

/-- `setSchema` (lines 250-253). -/
def setSchema (g : TokenGate) (s : Str) : TokenGate :=
  { g with schema := s }

/-- `setTable` (lines 255-258). -/
def setTable (g : TokenGate) (t : Str) : TokenGate :=
  { g with table := t }

/-- `setColumns` (lines 260-263). -/
def setColumns (g : TokenGate) (c : Columns) : TokenGate :=
  { g with columns := c }

/-- JS object indexing `m[e]`: the value stored under key `e`, if any. -/
def lookupRule {β : Type} (m : List (Str × β)) (e : Str) : Option β :=
  (m.find? fun p => decide (p.1 = e)).map Prod.snd

/-- JS object assignment `m[e] = r`: replace the entry in place when the key
exists, otherwise append it. -/
def objInsert (m : List (Str × Rule)) (e : Str) (r : Rule) : List (Str × Rule) :=
  if m.any fun p => decide (p.1 = e) then
    m.map fun p => if p.1 = e then (e, r) else p
  else m ++ [(e, r)]

/-- The message of the error thrown by `allowToken` for an unregistered
symbolic token reference. -/
def unknownTokenMsg (t : Str) : Str :=
  "unknown token reference ".toList ++ t

/-- The successful branch of `allowToken`: store
`{ allowedTokens: [...(this.rules[e]?.allowedTokens ?? []), i] }` under `e`
(note this replaces the whole rule object, so any `noRules` marker is lost). -/
def allowTokenId (g : TokenGate) (e : Str) (i : Int) : TokenGate :=
  { g with
    rules := objInsert g.rules e
      { noRules := false
        allowedTokens := some ((((lookupRule g.rules e).bind Rule.allowedTokens).getD []) ++ [i]) } }

/-- `allowToken` (lines 265-276): a symbolic name must already be registered
in `tokenNameIds`, otherwise the registration throws (modelled as
`Except.error`) and no updated gate is produced. -/
def allowToken (g : TokenGate) (e : Str) (t : TokenRef) : Except Str TokenGate :=
  match t with
  | TokenRef.name s =>
    match g.tokenNameIds s with
    | none => Except.error (unknownTokenMsg s)
    | some i => Except.ok (allowTokenId g e i)
  | TokenRef.num i => Except.ok (allowTokenId g e i)

/-- `getSpec` (lines 278-288): render every rule, mapping each numeric token
id to `this.tokenIdNames[t] ?? t`. -/
def getSpec (g : TokenGate) : List (Str × SpecRule) :=
  g.rules.map fun p =>
    (p.1,
      { noRules := p.2.noRules
        allowedTokens := p.2.allowedTokens.map (List.map fun t =>
          match g.tokenIdNames t with
          | some nm => TokenRef.name nm
          | none => TokenRef.num t) })

/-- `x.replace(/\/+$/, "")`: remove every trailing slash. -/
def stripTrailingSlash (x : Str) : Str :=
  (x.reverse.dropWhile fun c => decide (c = '/')).reverse

/-- JS `x.split("/")`: split on `'/'`, keeping empty segments
(`"".split("/") = [""]`, `"a//b".split("/") = ["a","","b"]`). -/
def splitSlash (l : Str) : List Str :=
  match l with
  | [] => [[]]
  | c :: rest =>
    match splitSlash rest with
    | [] => [[]]
    | s :: ss => if c = '/' then [] :: s :: ss else (c :: s) :: ss

/-- JS `parts.join("/")`. -/
def joinSlash (parts : List Str) : Str :=
  match parts with
  | [] => []
  | [s] => s
  | s :: s2 :: ss => s ++ '/' :: joinSlash (s2 :: ss)

/-- The loop-footer of `getRuleForEndpoint` (line 328-329):
`stripTrailingSlash(x).split("/").slice(0, -1).join("/") + "/"`. -/
def reduceEndpoint (x : Str) : Str :=
  joinSlash ((splitSlash (stripTrailingSlash x)).dropLast) ++ ['/']

/-- Termination measure for the reduction loop: the length of the normalized
path, plus one while the root has not been reached. -/
def endpointMeasure (e : Str) : Nat :=
  (stripTrailingSlash e).length + (if e = ['/'] then 0 else 1)

/-- The lookup loop of `getRuleForEndpoint` (lines 331-342), embedded with
fuel.  While the current endpoint is not `"/"` it looks up the exact key and
otherwise reduces; at the root (and, harmlessly, on fuel exhaustion — which
the termination theorems prove never happens for the fuel used below) it
returns `this.rules["/"]`. -/
def ruleLookupLoop (rules : List (Str × Rule)) : Nat → Str → Option Rule
  | 0, _ => lookupRule rules ['/']
  | fuel + 1, e =>
    if e = ['/'] then lookupRule rules ['/']
    else
      match lookupRule rules e with
      | some r => some r
      | none => ruleLookupLoop rules fuel (reduceEndpoint e)

/-- `getRuleForEndpoint` (lines 326-343): normalize the path, then run the
lookup loop. -/
def getRuleForEndpoint (g : TokenGate) (endpoint : Str) : Option Rule :=
  ruleLookupLoop g.rules ((stripTrailingSlash endpoint).length + 1)
    (stripTrailingSlash endpoint)

/-- The successive values taken by the loop variable of `getRuleForEndpoint`:
the path's prefix chain, ending at the root `"/"`. -/
def endpointChainLoop : Nat → Str → List Str
  | 0, _ => [['/']]
  | fuel + 1, e =>
    if e = ['/'] then [['/']]
    else e :: endpointChainLoop fuel (reduceEndpoint e)

/-- The prefix chain examined for a normalized path. -/
def endpointChain (e : Str) : List Str :=
  endpointChainLoop (e.length + 1) e

/-- SQL `SUM` over the selected rows: NULL (here `none`) when no row was
selected, otherwise the exact integer sum. -/
def sqlSumAmounts (amounts : List Int) : Option Int :=
  match amounts with
  | [] => none
  | a :: rest => some (a :: rest).sum

/-- The `WHERE` clause of the `ownsOneOf` query: the row's address equals the
caller address (an absent caller, a SQL NULL parameter, matches no row) and
the row's token id is `ANY` of the given ids. -/
def ledgerMatches (tzAddr : Option Str) (tokenIds : List Int) (row : LedgerRow) : Bool :=
  (match tzAddr with
   | none => false
   | some a => decide (row.address = a)) && decide (row.token ∈ tokenIds)

/-- `ownsOneOf` (lines 345-361): `amount_owned` is the aggregate sum coalesced
with `?? 0`; the result is `amountOwned > 0`. -/
def ownsOneOf (ledger : List LedgerRow) (tzAddr : Option Str) (tokenIds : List Int) : Bool :=
  decide (0 <
    (sqlSumAmounts ((ledger.filter (ledgerMatches tzAddr tokenIds)).map LedgerRow.amount)).getD 0)

/-- `hasAccess` (lines 312-324): no resolved rule or a `noRules` marker allows;
a rule with `allowedTokens` defers to `ownsOneOf`; any other rule allows. -/
def hasAccess (g : TokenGate) (ledger : List LedgerRow) (endpoint : Str)
    (tzAddr : Option Str) : Bool :=
  match getRuleForEndpoint g endpoint with
  | none => true
  | some rule =>
    if rule.noRules then true
    else
      match rule.allowedTokens with
      | some ts => ownsOneOf ledger tzAddr ts
      | none => true

/-- The boolean decision computed by the `use` middleware (lines 295-310):
extract the url and the caller address with the gate's current extraction
functions and call `hasAccess`. -/
def useDecision (g : TokenGate) (ledger : List LedgerRow) (req : Req) : Bool :=
  hasAccess g ledger (g.urlFromReq req) (g.tzAddrFromReq req)

/-- The SQL text issued by `ownsOneOf` (lines 349-355), with exactly the
template-literal interpolations of the source: the amount, schema, address and
token identifiers are interpolated; the table name is the literal
`storage.ledger_live`. -/
def ownsOneOfQuery (g : TokenGate) : Str :=
  "\nSELECT\n  SUM(".toList ++ g.columns.amount
    ++ ") AS amount_owned\nFROM \"".toList ++ g.schema
    ++ "\".\"storage.ledger_live\"\nWHERE ".toList ++ g.columns.address
    ++ " = $1\n  AND ".toList ++ g.columns.token
    ++ " = ANY($2)\n      ".toList

/-- Modelled from the spec: the `WhitelistGate` component (spec section 4.4) is
not present under `src/`; per the spec, an address passes iff a whitelist row
exists for it with `claimed = false`, and an absent caller address never
passes. -/
def isWhitelisted (wl : List WhitelistRow) (tzAddr : Option Str) : Bool :=
  match tzAddr with
  | none => false
  | some a => wl.any fun row => decide (row.address = a) && !row.claimed

/-- Modelled from the spec: the `AccessDecisionEngine` with whitelist
enforcement (spec section 4.5) is not present under `src/`; per the spec:
resolve the rule (no rule or `NoRules` allows); under a token-requiring rule
an absent address denies; with enforcement enabled a failing whitelist check
denies; otherwise the ownership check decides. -/
def decideWithWhitelist (g : TokenGate) (wl : List WhitelistRow)
    (ledger : List LedgerRow) (whitelistEnabled : Bool) (endpoint : Str)
    (tzAddr : Option Str) : Bool :=
  match getRuleForEndpoint g endpoint with
  | none => true
  | some rule =>
    if rule.noRules then true
    else
      match rule.allowedTokens with
      | none => true
      | some ts =>
        match tzAddr with
        | none => false
        | some a =>
          if whitelistEnabled && !isWhitelisted wl (some a) then false
          else ownsOneOf ledger (some a) ts

/-- A rule requiring token id 10, used by the concrete witnesses. -/
def ruleVip : Rule :=
  { noRules := false, allowedTokens := some [10] }

/-- A gate with `ruleVip` registered at the endpoint `/v`. -/
def gateEx : TokenGate :=
  { initTokenGate with rules := [(['/', 'v'], ruleVip)] }

/-- A ledger in which address `tz1` owns 5 units of token 10. -/
def ledgerEx : List LedgerRow :=
  [{ address := ['t', 'z', '1'], token := 10, amount := 5 }]

/-- `splitSlash` never returns the empty list of segments. -/
theorem splitSlash_ne_nil (l : Str) : splitSlash l ≠ [] := by
  cases l with
  | nil => simp [splitSlash]
  | cons c rest =>
    simp only [splitSlash]
    cases splitSlash rest with
    | nil => simp
    | cons s ss => by_cases hc : c = '/' <;> simp [hc]

/-- Joining the segments of a split string recovers the string. -/
theorem joinSlash_splitSlash (l : Str) : joinSlash (splitSlash l) = l := by
  induction l with
  | nil => rfl
  | cons c rest ih =>
    cases hsp : splitSlash rest with
    | nil => exact absurd hsp (splitSlash_ne_nil rest)
    | cons s ss =>
      rw [hsp] at ih
      by_cases hc : c = '/'
      · subst hc
        simp only [splitSlash, hsp, if_pos rfl, joinSlash]
        simpa using ih
      · cases ss with
        | nil =>
          simp only [splitSlash, hsp, if_neg hc, joinSlash] at *
          simp [ih]
        | cons t ts =>
          simp only [splitSlash, hsp, if_neg hc, joinSlash] at *
          simp [ih]

/-- Joining after appending one more segment appends a slash and the segment. -/
theorem joinSlash_append_singleton (d : List Str) (b : Str) (hd : d ≠ []) :
    joinSlash (d ++ [b]) = joinSlash d ++ '/' :: b := by
  induction d with
  | nil => exact absurd rfl hd
  | cons x xs ih =>
    cases xs with
    | nil => simp [joinSlash]
    | cons y ys =>
      have hih := ih (by simp)
      simp only [List.cons_append, joinSlash, List.append_eq] at *
      rw [hih]
      simp

/-- Stripping trailing slashes absorbs a final slash. -/
theorem stripTrailingSlash_append_slash (l : Str) :
    stripTrailingSlash (l ++ ['/']) = stripTrailingSlash l := by
  unfold stripTrailingSlash
  rw [List.reverse_append]
  simp [List.dropWhile]

/-- Stripping trailing slashes never lengthens a string. -/
theorem stripTrailingSlash_length_le (l : Str) :
    (stripTrailingSlash l).length ≤ l.length := by
  unfold stripTrailingSlash
  rw [List.length_reverse]
  calc (l.reverse.dropWhile fun c => decide (c = '/')).length
      ≤ l.reverse.length := (List.dropWhile_sublist _).length_le
    _ = l.length := List.length_reverse l

/-- The termination measure is bounded by the path length plus one. -/
theorem endpointMeasure_le (e : Str) : endpointMeasure e ≤ e.length + 1 := by
  unfold endpointMeasure
  have := stripTrailingSlash_length_le e
  split <;> omega

/-- Each pass of the reduction loop strictly decreases the measure. -/
theorem endpointMeasure_reduce_lt (e : Str) (he : e ≠ ['/']) :
    endpointMeasure (reduceEndpoint e) < endpointMeasure e := by
  have hme : endpointMeasure e = (stripTrailingSlash e).length + 1 := by
    unfold endpointMeasure
    rw [if_neg he]
  by_cases hr : reduceEndpoint e = ['/']
  · rw [hr]
    have h0 : endpointMeasure ['/'] = 0 := by decide
    omega
  · have hparts : splitSlash (stripTrailingSlash e) ≠ [] :=
      splitSlash_ne_nil (stripTrailingSlash e)
    have hd : (splitSlash (stripTrailingSlash e)).dropLast ≠ [] := by
      intro h0
      apply hr
      unfold reduceEndpoint
      rw [h0]
      rfl
    have hjoin : stripTrailingSlash e
        = joinSlash (splitSlash (stripTrailingSlash e)).dropLast
          ++ '/' :: (splitSlash (stripTrailingSlash e)).getLast hparts := by
      conv_lhs =>
        rw [← joinSlash_splitSlash (stripTrailingSlash e),
          ← List.dropLast_append_getLast hparts]
      exact joinSlash_append_singleton _ _ hd
    have hred : reduceEndpoint e
        = joinSlash (splitSlash (stripTrailingSlash e)).dropLast ++ ['/'] := rfl
    have hmr : endpointMeasure (reduceEndpoint e)
        = (stripTrailingSlash
            (joinSlash (splitSlash (stripTrailingSlash e)).dropLast)).length + 1 := by
      unfold endpointMeasure
      rw [if_neg hr, hred, stripTrailingSlash_append_slash]
    have hlen1 := stripTrailingSlash_length_le
      (joinSlash (splitSlash (stripTrailingSlash e)).dropLast)
    have hlen2 : (joinSlash (splitSlash (stripTrailingSlash e)).dropLast).length + 1
        ≤ (stripTrailingSlash e).length := by
      conv_rhs => rw [hjoin]
      simp
    omega

/-- Iterating the reduction reaches the root within the measure. -/
theorem iterate_reduce_reaches_root :
    ∀ (n : Nat) (e : Str), endpointMeasure e ≤ n →
      ∃ k, k ≤ n ∧ reduceEndpoint^[k] e = ['/'] := by
  intro n
  induction n with
  | zero =>
    intro e h
    have he : e = ['/'] := by
      by_contra hne
      have : endpointMeasure e = (stripTrailingSlash e).length + 1 := by
        unfold endpointMeasure
        rw [if_neg hne]
      omega
    exact ⟨0, Nat.le_refl 0, by rw [Function.iterate_zero_apply, he]⟩
  | succ n ih =>
    intro e h
    by_cases he : e = ['/']
    · exact ⟨0, Nat.zero_le _, by rw [Function.iterate_zero_apply, he]⟩
    · have hlt := endpointMeasure_reduce_lt e he
      obtain ⟨k, hk, hre⟩ := ih (reduceEndpoint e) (by omega)
      exact ⟨k + 1, by omega, by rw [Function.iterate_succ_apply]; exact hre⟩

/-- Once the reduction reaches the root within `k` steps, any fuel of at least
`k` yields the same lookup result: the fueled embedding computes the value of
the source's unbounded loop. -/
theorem ruleLookupLoop_stable (rules : List (Str × Rule)) :
    ∀ (k : Nat) (e : Str), reduceEndpoint^[k] e = ['/'] →
      ∀ fuel, k ≤ fuel → ruleLookupLoop rules fuel e = ruleLookupLoop rules k e := by
  intro k
  induction k with
  | zero =>
    intro e h fuel _
    rw [Function.iterate_zero_apply] at h
    subst h
    cases fuel with
    | zero => rfl
    | succ m => simp [ruleLookupLoop]
  | succ k ih =>
    intro e h fuel hf
    obtain ⟨m, rfl⟩ : ∃ m, fuel = m + 1 := ⟨fuel - 1, by omega⟩
    by_cases he : e = ['/']
    · subst he
      simp [ruleLookupLoop]
    · rw [Function.iterate_succ_apply] at h
      simp only [ruleLookupLoop, if_neg he]
      cases hl : lookupRule rules e with
      | some r => rfl
      | none => exact ih (reduceEndpoint e) h m (by omega)

/-- The lookup loop returns the first rule found along the chain of successive
loop values. -/
theorem ruleLookupLoop_eq_chain (rules : List (Str × Rule)) :
    ∀ (fuel : Nat) (e : Str),
      ruleLookupLoop rules fuel e
        = (endpointChainLoop fuel e).findSome? (lookupRule rules) := by
  intro fuel
  induction fuel with
  | zero =>
    intro e
    simp only [ruleLookupLoop, endpointChainLoop, List.findSome?]
    cases lookupRule rules ['/'] <;> rfl
  | succ n ih =>
    intro e
    by_cases he : e = ['/']
    · subst he
      simp only [ruleLookupLoop, endpointChainLoop, if_pos rfl, List.findSome?]
      cases lookupRule rules ['/'] <;> rfl
    · simp only [ruleLookupLoop, endpointChainLoop, if_neg he, List.findSome?]
      cases hl : lookupRule rules e with
      | some r => rfl
      | none => exact ih (reduceEndpoint e)

/-- An absent caller address makes the ownership check return false: the SQL
NULL parameter matches no ledger row, the empty sum is coalesced to 0, and
`0 > 0` fails. -/
theorem ownsOneOf_none (ledger : List LedgerRow) (ts : List Int) :
    ownsOneOf ledger none ts = false := by
  have hfil : ledger.filter (ledgerMatches none ts) = [] := by
    rw [List.filter_eq_nil_iff]
    intro row _
    simp [ledgerMatches]
  simp [ownsOneOf, hfil, sqlSumAmounts]

/-- The ownership check equals the strict positivity of the plain sum over the
matching rows (the NULL sum of an empty selection behaves as 0). -/
theorem ownsOneOf_eq_sum_pos (ledger : List LedgerRow) (tzAddr : Option Str)
    (tokenIds : List Int) :
    ownsOneOf ledger tzAddr tokenIds
      = decide (0 < ((ledger.filter (ledgerMatches tzAddr tokenIds)).map LedgerRow.amount).sum) := by
  unfold ownsOneOf
  cases hfil : ledger.filter (ledgerMatches tzAddr tokenIds) with
  | nil => simp [hfil, sqlSumAmounts]
  | cons a l => simp [hfil, sqlSumAmounts]

/-- Looking a key up in a map whose entries were rewritten value-wise (keys
kept) returns the rewritten value. -/
theorem lookupRule_map_keys {α β : Type} (f : Str → α → β) (l : List (Str × α)) (e : Str) :
    lookupRule (l.map fun p => (p.1, f p.1 p.2)) e = (lookupRule l e).map (f e) := by
  induction l with
  | nil => rfl
  | cons hd tl ih =>
    by_cases hk : hd.1 = e
    · simp only [List.map_cons, lookupRule]
      rw [List.find?_cons_of_pos _ (by simpa using hk),
        List.find?_cons_of_pos _ (by simpa using hk)]
      subst hk
      simp
    · simp only [List.map_cons, lookupRule]
      rw [List.find?_cons_of_neg _ (by simpa using hk),
        List.find?_cons_of_neg _ (by simpa using hk)]
      exact ih

/-- C1: rule resolution strips trailing slashes, then repeatedly looks up an
exact rule and removes the last path segment (keeping a trailing slash) until
the root: the result is the first (deepest) registered entry along the path's
prefix chain, and when no rule is registered anywhere along the chain the
result is nothing and the access decision is the unconditional ALLOW. -/
theorem c1_rule_resolution (g : TokenGate) (ledger : List LedgerRow) (p : Str)
    (tzAddr : Option Str) :
    getRuleForEndpoint g p
      = (endpointChain (stripTrailingSlash p)).findSome? (lookupRule g.rules)
    ∧ ((endpointChain (stripTrailingSlash p)).findSome? (lookupRule g.rules) = none →
        hasAccess g ledger p tzAddr = true) := by
  have h := ruleLookupLoop_eq_chain g.rules ((stripTrailingSlash p).length + 1)
    (stripTrailingSlash p)
  refine ⟨h, fun hnone => ?_⟩
  have hg : getRuleForEndpoint g p = none := h.trans hnone
  unfold hasAccess
  rw [hg]

/-- Witness for C1 at a concrete input: with no rules registered anywhere, the
chain yields nothing and the decision is ALLOW. -/
theorem c1_rule_resolution_witness :
    hasAccess initTokenGate [] ['/', 'a'] none = true :=
  (c1_rule_resolution initTokenGate [] ['/', 'a'] none).2 (by decide)

/-- C2: the ownership check returns true iff the summed ledger amount over
rows matching the address and any id in the set is strictly positive; an empty
selection behaves as a zero sum and yields false, never an error (the
embedding is a total boolean function). -/
theorem c2_ownsOneOf_sum (ledger : List LedgerRow) (tzAddr : Option Str)
    (tokenIds : List Int) :
    (ownsOneOf ledger tzAddr tokenIds = true ↔
      0 < ((ledger.filter fun row =>
        decide (tzAddr = some row.address) && decide (row.token ∈ tokenIds)).map
          LedgerRow.amount).sum)
    ∧ ((∀ row ∈ ledger, ledgerMatches tzAddr tokenIds row = false) →
        ownsOneOf ledger tzAddr tokenIds = false) := by
  have hpred : ∀ row ∈ ledger, ledgerMatches tzAddr tokenIds row
      = (decide (tzAddr = some row.address) && decide (row.token ∈ tokenIds)) := by
    intro row _
    unfold ledgerMatches
    cases tzAddr with
    | none => simp
    | some a =>
      have hdec : (decide (row.address = a))
          = (decide ((some a : Option Str) = some row.address)) := by
        rw [decide_eq_decide]
        constructor
        · intro h; rw [h]
        · intro h; injection h with h2; rw [h2]
      show (decide (row.address = a) && decide (row.token ∈ tokenIds)) = _
      rw [hdec]
  constructor
  · rw [ownsOneOf_eq_sum_pos, List.filter_congr hpred]
    exact decide_eq_true_iff
  · intro hnone
    have hfil : ledger.filter (ledgerMatches tzAddr tokenIds) = [] := by
      rw [List.filter_eq_nil_iff]
      intro a ha
      simp [hnone a ha]
    rw [ownsOneOf_eq_sum_pos, hfil]
    simp

/-- Witness for C2 at a concrete input: an empty ledger has no matching rows
and the check returns false. -/
theorem c2_ownsOneOf_sum_witness :
    ownsOneOf [] (some ['t', 'z', '1']) [1] = false :=
  (c2_ownsOneOf_sum [] (some ['t', 'z', '1']) [1]).2 (by simp)

/-- C3: under a token-requiring resolved rule, an absent caller address gives
a deterministic DENY (`hasAccess` is a total boolean function, so no error is
possible). -/
theorem c3_absent_address_denied (g : TokenGate) (ledger : List LedgerRow)
    (p : Str) (r : Rule) (ts : List Int)
    (h1 : getRuleForEndpoint g p = some r) (h2 : r.noRules = false)
    (h3 : r.allowedTokens = some ts) :
    hasAccess g ledger p none = false := by
  unfold hasAccess
  rw [h1]
  simp [h2, h3, ownsOneOf_none]

/-- Witness for C3 at a concrete input: the `/v` endpoint requires token 10,
and an unauthenticated caller is denied even though the ledger has owners. -/
theorem c3_absent_address_denied_witness :
    hasAccess gateEx ledgerEx ['/', 'v'] none = false :=
  c3_absent_address_denied gateEx ledgerEx ['/', 'v'] ruleVip [10] (by decide) rfl rfl

/-- C4: registering a rule that references a symbolic token name absent from
the registry errors immediately at registration time (the `Except` embedding
of the thrown error) and produces no updated rule set. -/
theorem c4_unknown_alias_registration_error (g : TokenGate) (e : Str) (n : Str)
    (h : g.tokenNameIds n = none) :
    allowToken g e (TokenRef.name n) = Except.error (unknownTokenMsg n)
    ∧ ∀ g2 : TokenGate, allowToken g e (TokenRef.name n) ≠ Except.ok g2 := by
  have hall : allowToken g e (TokenRef.name n) = Except.error (unknownTokenMsg n) := by
    simp [allowToken, h]
  exact ⟨hall, fun g2 hc => by rw [hall] at hc; cases hc⟩

/-- Witness for C4 at a concrete input: referencing the unregistered alias
`unicorn` errors at registration time. -/
theorem c4_unknown_alias_registration_error_witness :
    allowToken initTokenGate ['/', 'x'] (TokenRef.name "unicorn".toList)
      = Except.error (unknownTokenMsg "unicorn".toList)
    ∧ ∀ g2 : TokenGate,
        allowToken initTokenGate ['/', 'x'] (TokenRef.name "unicorn".toList)
          ≠ Except.ok g2 :=
  c4_unknown_alias_registration_error initTokenGate ['/', 'x'] "unicorn".toList rfl

/-- C5 (code bug): the configured table name is never substituted into the
ledger query — `setTable` updates the `table` field, yet the SQL text issued
by `ownsOneOf` is unchanged for every choice of table name, because the source
hard-codes the literal `storage.ledger_live`. -/
theorem c5_table_never_substituted (g : TokenGate) (t : Str) :
    ownsOneOfQuery (setTable g t) = ownsOneOfQuery g ∧ (setTable g t).table = t :=
  ⟨rfl, rfl⟩

/-- C6 counterexample: registering id 5 as `a` and then id 5 as `b` succeeds;
two distinct registered aliases carry the same id (their degenerate ranges
[5,5] overlap under the closed-interval test) and the second, overlapping
registration changed the registry instead of failing. -/
theorem c6_overlap_counterexample :
    ((nameTokenId (nameTokenId initTokenGate 5 ['a']) 5 ['b']).tokenNameIds ['a'] = some 5)
    ∧ ((nameTokenId (nameTokenId initTokenGate 5 ['a']) 5 ['b']).tokenNameIds ['b'] = some 5)
    ∧ (['a'] : Str) ≠ ['b']
    ∧ (nameTokenId (nameTokenId initTokenGate 5 ['a']) 5 ['b']).tokenNameIds
        ≠ (nameTokenId initTokenGate 5 ['a']).tokenNameIds :=
  ⟨by decide, by decide, by decide,
    fun hcontra => absurd (congrFun hcontra ['b']) (by decide)⟩

/-- C6 amended: alias registration via `nameTokenId` performs no overlap or
duplicate check and never fails — it always returns the gate with both alias
maps updated for the given binding and all other bindings untouched, so
distinct names may be registered with overlapping (even equal) ids. -/
theorem c6_amended_no_overlap_check (g : TokenGate) (id : Int) (n : Str) :
    (nameTokenId g id n).tokenNameIds n = some id
    ∧ (nameTokenId g id n).tokenIdNames id = some n
    ∧ (∀ m : Str, m ≠ n → (nameTokenId g id n).tokenNameIds m = g.tokenNameIds m)
    ∧ (∀ j : Int, j ≠ id → (nameTokenId g id n).tokenIdNames j = g.tokenIdNames j) := by
  refine ⟨by simp [nameTokenId], by simp [nameTokenId], ?_, ?_⟩
  · intro m hm
    simp [nameTokenId, hm]
  · intro j hj
    simp [nameTokenId, hj]

/-- Witness for the amended C6 at a concrete input. -/
theorem c6_amended_no_overlap_check_witness :
    (nameTokenId initTokenGate 5 ['a']).tokenNameIds ['a'] = some 5
    ∧ (nameTokenId initTokenGate 5 ['a']).tokenNameIds ['b'] = none :=
  ⟨(c6_amended_no_overlap_check initTokenGate 5 ['a']).1,
    ((c6_amended_no_overlap_check initTokenGate 5 ['a']).2.2.1 ['b'] (by decide)).trans rfl⟩

/-- C7 (spec-modelled): with whitelist enforcement enabled and a resolved
token-requiring rule, the decision is the conjunction of the whitelist gate
and the ownership check — in particular an address owning a required token but
failing the whitelist gate is denied. -/
theorem c7_whitelist_and_ownership (g : TokenGate) (wl : List WhitelistRow)
    (ledger : List LedgerRow) (p : Str) (tzAddr : Option Str) (r : Rule)
    (ts : List Int) (h1 : getRuleForEndpoint g p = some r)
    (h2 : r.noRules = false) (h3 : r.allowedTokens = some ts) :
    decideWithWhitelist g wl ledger true p tzAddr
      = (isWhitelisted wl tzAddr && ownsOneOf ledger tzAddr ts) := by
  unfold decideWithWhitelist
  rw [h1]
  cases tzAddr with
  | none => simp [h2, h3, isWhitelisted]
  | some a =>
    simp only [h2, h3, Bool.false_eq_true, if_false]
    cases hw : isWhitelisted wl (some a) <;> simp [hw]

/-- Witness for C7 at a concrete input: `tz1` owns the required token 10 but
the whitelist is empty, so the decision is DENY. -/
theorem c7_whitelist_and_ownership_witness :
    decideWithWhitelist gateEx [] ledgerEx true ['/', 'v'] (some ['t', 'z', '1']) = false :=
  (c7_whitelist_and_ownership gateEx [] ledgerEx ['/', 'v'] (some ['t', 'z', '1'])
    ruleVip [10] (by decide) rfl rfl).trans (by decide)

/-- C8: `getSpec` maps every registered endpoint to its rule with each numeric
token id rendered back to its registered alias name when one exists and left
as the raw numeric id otherwise. -/
theorem c8_getSpec_renders_aliases (g : TokenGate) (e : Str) :
    lookupRule (getSpec g) e
      = (lookupRule g.rules e).map fun r =>
          { noRules := r.noRules
            allowedTokens := r.allowedTokens.map (List.map fun t =>
              match g.tokenIdNames t with
              | some nm => TokenRef.name nm
              | none => TokenRef.num t) : SpecRule } := by
  unfold getSpec
  exact lookupRule_map_keys
    (fun _ r =>
      ({ noRules := r.noRules
         allowedTokens := r.allowedTokens.map (List.map fun t =>
           match g.tokenIdNames t with
           | some nm => TokenRef.name nm
           | none => TokenRef.num t) } : SpecRule))
    g.rules e

/-- C9: `setUrlFromReqFunc f` leaves the url extractor unchanged and instead
replaces the caller-address extractor with `f`, so subsequent middleware
decisions extract the address with `f`. -/
theorem c9_setUrlFromReqFunc_replaces_addr_extractor (g : TokenGate)
    (f : Req → Option Str) :
    (setUrlFromReqFunc g f).urlFromReq = g.urlFromReq
    ∧ (setUrlFromReqFunc g f).tzAddrFromReq = f
    ∧ ∀ (ledger : List LedgerRow) (req : Req),
        useDecision (setUrlFromReqFunc g f) ledger req
          = hasAccess g ledger (g.urlFromReq req) (f req) :=
  ⟨rfl, rfl, fun _ _ => rfl⟩

/-- C10: for every input path (slash-less, empty, repeated or trailing
slashes included) the reduction loop of `getRuleForEndpoint` reaches the root
`"/"` in at most `length + 1` steps, and past that point additional fuel never
changes the lookup result: the source's unbounded loop terminates. -/
theorem c10_rule_loop_terminates (g : TokenGate) (p : Str) :
    ∃ k, k ≤ (stripTrailingSlash p).length + 1
      ∧ reduceEndpoint^[k] (stripTrailingSlash p) = ['/']
      ∧ ∀ fuel, k ≤ fuel →
          ruleLookupLoop g.rules fuel (stripTrailingSlash p)
            = ruleLookupLoop g.rules k (stripTrailingSlash p) := by
  obtain ⟨k, hk, hroot⟩ :=
    iterate_reduce_reaches_root (endpointMeasure (stripTrailingSlash p))
      (stripTrailingSlash p) (Nat.le_refl _)
  exact ⟨k, hk.trans (endpointMeasure_le _), hroot,
    fun fuel hf => ruleLookupLoop_stable g.rules k _ hroot fuel hf⟩
